import Mathlib

/-!
A shallow embedding of the configuration compiler `build.rs`
(`resolve_config_path`, `get_comments`, `add_config`, `load_config_toml`,
`gen_config_rs` with its inner `is_num`, and `main`).

Modelling conventions:
* A `toml_edit::Table` is an ordered association list of entries; each entry
  carries the key, its item, and the key decor's prefix string (the raw
  leading-comment text), mirroring how `toml_edit` stores comments.
* Machine integers (`usize`) are modelled as `Nat` with an explicit
  `2 ^ 64` bound (64-bit build host).
* File paths are strings with `/` as separator (Unix host).
* Rust panics (`unwrap`, `expect`, indexing) and I/O errors are modelled with
  `Except GenErr`.
* `char::to_uppercase`, `char::is_whitespace` are modelled by their ASCII
  behaviour (`Char.toUpper`, `Char.isWhitespace`); all keys and comments the
  tool consumes are ASCII.
-/

namespace BuildConfig

/-- A `toml_edit::Value` as used by the generator. Only strings and arrays are
inspected; the remaining value forms (`Integer`, `Float`, `Boolean`,
`Datetime`, `InlineTable`) are carried so that the emitter's catch-all arm can
be stated. -/
inductive TomlValue where
  | str (s : String)
  | arr (elems : List TomlValue)
  | intV (n : Int)
  | floatV (raw : String)
  | boolV (b : Bool)
  | datetime (raw : String)
  | inlineTable

/-- A `toml_edit::Item`: either `Item::Value` or one of the non-value forms
(`Item::Table`, `Item::ArrayOfTables`, `Item::None`), which the emitter's
`if let Item::Value(..)` test rejects uniformly. -/
inductive Item where
  | value (v : TomlValue)
  | nonValue

/-- One key of a `toml_edit::Table`: the key text, its item, and the key
decor's prefix (`None` when the key has no decor prefix). -/
structure Entry where
  key : String
  item : Item
  decor : Option String

/-- A `toml_edit::Table`: an ordered list of keyed entries. -/
abbrev Table := List Entry

/-- `Value::as_str` composed through `Item::as_str`. -/
def asStr : TomlValue → Option String
  | .str s => some s
  | _ => none

/-- `Value::as_array`. -/
def asArr : TomlValue → Option (List TomlValue)
  | .arr l => some l
  | _ => none

/-- `Item::as_str`. -/
def itemAsStr : Item → Option String
  | .value v => asStr v
  | _ => none

/-- First entry with the given key (lookup in the ordered map). -/
def lookupEntry : Table → String → Option Entry
  | [], _ => none
  | e :: t, k => if e.key = k then some e else lookupEntry t k

/-- `Table::contains_key`. -/
def contains_key (t : Table) (k : String) : Bool :=
  (lookupEntry t k).isSome

/-- The item stored under a key, if any. -/
def lookupItem (t : Table) (k : String) : Option Item :=
  (lookupEntry t k).map (·.item)

/-- Number of entries carrying a given key (an observation on the ordered map;
parsed TOML tables have at most one). -/
def countKey (t : Table) (k : String) : Nat :=
  (t.filter (fun e => e.key == k)).length

/-- `str::replace(c, r)` for a single-character pattern, as used by
`replace('_', "")`, `replace('-', "_")` and `replace('#', "///")`. -/
def replaceChar (c : Char) (r : List Char) (s : String) : String :=
  ⟨s.data.foldr (fun a acc => if a = c then r ++ acc else a :: acc) []⟩

/-- `str::to_uppercase` (ASCII behaviour). -/
def to_uppercase (s : String) : String :=
  ⟨s.data.map Char.toUpper⟩

/-- `key.to_uppercase().replace('-', "_")`: the emitted constant name. -/
def var_name_of (key : String) : String :=
  replaceChar '-' ['_'] (to_uppercase key)

/-- Whitespace test used by `str::trim` (ASCII behaviour). -/
def wsB (c : Char) : Bool :=
  c.isWhitespace

/-- `str::trim` on the character list: drop whitespace from both ends. -/
def trimAux (cs : List Char) : List Char :=
  ((cs.dropWhile wsB).reverse.dropWhile wsB).reverse

/-- `str::trim`. -/
def rustTrim (s : String) : String :=
  ⟨trimAux s.data⟩

/-- `get_comments`: the key decor's prefix, trimmed. -/
def get_comments (config : Table) (key : String) : Option String :=
  ((lookupEntry config key).bind (·.decor)).map rustTrim

/-- `Table::insert`: replace the first entry with this key in place (the
replacement resets the key decor, as `toml_edit` rebuilds the key-value
record), else append a fresh entry with default decor. -/
def insertItem : Table → String → Item → Table
  | [], k, it => [⟨k, it, none⟩]
  | e :: t, k, it => if e.key = k then ⟨k, it, none⟩ :: t else e :: insertItem t k it

/-- `*config.key_decor_mut(key) = Decor::new(comm, "")`: set the decor prefix
of the (first) entry with this key. -/
def setDecor : Table → String → String → Table
  | [], _, _ => []
  | e :: t, k, c => if e.key = k then { e with decor := some c } :: t else e :: setDecor t k c

/-- `add_config`: insert the item, then install the given comment as the key's
decor prefix when one is supplied. -/
def add_config (config : Table) (key : String) (item : Item) (comments : Option String) : Table :=
  let t := insertItem config key item
  match comments with
  | some comm => setDecor t key comm
  | none => t

/-- One iteration of the defaults-filling loop in `gen_config_rs`: keys already
present in the accumulating platform config are kept, missing ones are copied
from the default document together with their comments. -/
def mergeStep (defconfig : Table) (acc : Table) (e : Entry) : Table :=
  if contains_key acc e.key then acc
  else add_config acc e.key e.item (get_comments defconfig e.key)

/-- The defaults-filling loop of `gen_config_rs` (lines 85–95): overlay the
platform document `override` with every default entry it is missing. -/
def mergeConfig (defconfig override : Table) : Table :=
  defconfig.foldl (mergeStep defconfig) override

/-- `char::to_digit(radix)`. -/
def charDigit? (radix : Nat) (c : Char) : Option Nat :=
  let d? : Option Nat :=
    if '0'.toNat ≤ c.toNat ∧ c.toNat ≤ '9'.toNat then some (c.toNat - '0'.toNat)
    else if 'a'.toNat ≤ c.toNat ∧ c.toNat ≤ 'z'.toNat then some (c.toNat - 'a'.toNat + 10)
    else if 'A'.toNat ≤ c.toNat ∧ c.toNat ≤ 'Z'.toNat then some (c.toNat - 'A'.toNat + 10)
    else none
  match d? with
  | some d => if d < radix then some d else none
  | none => none

/-- Accumulate a digit string in the given radix; `none` when empty or when a
character is not a digit of the radix. -/
def parseDigits (radix : Nat) (cs : List Char) : Option Nat :=
  match cs with
  | [] => none
  | _ =>
    cs.foldl
      (fun acc c =>
        match acc, charDigit? radix c with
        | some n, some d => some (n * radix + d)
        | _, _ => none)
      (some 0)

/-- `usize::MAX` on a 64-bit build host. -/
def USIZE_MAX : Nat := 2 ^ 64 - 1

/-- `usize::from_str_radix` (also `str::parse::<usize>` at radix 10): an
optional leading `+`, then at least one digit of the radix, rejecting values
that overflow `usize`. A leading `-` is not a digit, so it fails as in Rust. -/
def parse_usize (radix : Nat) (cs : List Char) : Option Nat :=
  let digits :=
    match cs with
    | '+' :: rest => rest
    | cs => cs
  match parseDigits radix digits with
  | some n => if n ≤ USIZE_MAX then some n else none
  | none => none

/-- `is_num` from `gen_config_rs`: strip `_`, then try decimal, then try
hexadecimal after a `0x` prefix. -/
def is_num (s : String) : Bool :=
  let cs := s.data.filter (fun c => !(c == '_'))
  if (parse_usize 10 cs).isSome then true
  else
    match cs with
    | '0' :: 'x' :: rest => (parse_usize 16 rest).isSome
    | _ => false

/-- Failure modes of the pipeline: a propagated `io::Error`, or a Rust panic
(`unwrap` / `expect` / table indexing). -/
inductive GenErr where
  | ioError
  | panic
deriving DecidableEq

/-- Emission of one region-list element: `r.as_array().unwrap()`, then the
first two elements via `get(0)/get(1).unwrap().as_str().unwrap()`, printed as
a pair line. -/
def emitRegion (r : TomlValue) : Except GenErr String :=
  match asArr r with
  | none => .error .panic
  | some elems =>
    match elems.get? 0, elems.get? 1 with
    | some v0, some v1 =>
      match asStr v0, asStr v1 with
      | some s0, some s1 => .ok ("    (" ++ s0 ++ ", " ++ s1 ++ "),")
      | _, _ => .error .panic
    | _, _ => .error .panic

/-- Effectful map over a list, stopping at the first error (the shape of the
emitter's `for` loops, whose panics abort the whole generation). -/
def mapE {α β : Type} (f : α → Except GenErr β) : List α → Except GenErr (List β)
  | [] => .ok []
  | a :: l =>
    match f a with
    | .error e => .error e
    | .ok b => (mapE f l).map (fun bs => b :: bs)

/-- The body of the per-key loop of `gen_config_rs` (lines 115–151): the lines
this entry contributes to the output. -/
def emitEntry (config : Table) (e : Entry) : Except GenErr (List String) :=
  let var_name := var_name_of e.key
  match e.item with
  | .nonValue => .ok []
  | .value v =>
    let comments := replaceChar '#' ['/', '/', '/'] ((get_comments config e.key).getD "")
    match v with
    | .str s =>
      .ok [comments,
        if is_num s then "pub const " ++ var_name ++ ": usize = " ++ s ++ ";"
        else "pub const " ++ var_name ++ ": &str = \"" ++ s ++ "\";"]
    | .arr regions =>
      if e.key ≠ "mmio-regions" ∧ e.key ≠ "virtio-mmio-regions" ∧ e.key ≠ "pci-ranges" then
        .ok []
      else
        (mapE emitRegion regions).map (fun pairs =>
          [comments, "pub const " ++ var_name ++ ": &[(usize, usize)] = &["]
            ++ pairs ++ ["];"])
    | _ => .ok []

/-- All constant-declaration lines of the output, in document order. -/
def gen_config_body (config : Table) : Except GenErr (List String) :=
  (mapE (emitEntry config) config).map List.flatten

/-- First header line of the generated file. -/
def header1 (p : String) : String :=
  "// Platform constants and parameters for " ++ p ++ "."

/-- Second header line of the generated file. -/
def header2 : String :=
  "// Generated by build.rs, DO NOT edit!"

/-- The emission phase of `gen_config_rs` (lines 106–154): read the `platform`
key (panicking when it is absent or not a string), then the two header lines,
a blank line, and the per-key declarations. -/
def gen_emit (config : Table) : Except GenErr (List String) :=
  match lookupItem config "platform" with
  | none => .error .panic
  | some it =>
    match itemAsStr it with
    | none => .error .panic
    | some p => (gen_config_body config).map (fun body => header1 p :: header2 :: "" :: body)

/-- Outcome of reading and parsing one configuration file. -/
inductive LoadResult where
  | missing
  | parseError
  | ok (t : Table)

/-- `load_config_toml`: `read_to_string` errors propagate, parse failures
panic (`expect`). -/
def load_config_toml (fs : String → LoadResult) (path : String) : Except GenErr Table :=
  match fs path with
  | .missing => .error .ioError
  | .parseError => .error .panic
  | .ok t => .ok t

/-- The unconditional `smp` injection of `gen_config_rs` (lines 99–104):
`AX_SMP`'s value when the variable is set, else `"1"`, always with the fixed
comment. -/
def inject_smp (config : Table) (axSmp : Option String) : Table :=
  add_config config "smp" (.value (.str (axSmp.getD "1"))) (some "# Number of CPUs")

/-- `gen_config_rs`: load (merging defaults in unless the path is the default
file itself), inject `smp`, then emit. -/
def gen_config_rs (fs : String → LoadResult) (config_path : String) (axSmp : Option String) :
    Except GenErr (List String) :=
  let loaded : Except GenErr Table :=
    if config_path = "defconfig.toml" then load_config_toml fs config_path
    else
      match load_config_toml fs "defconfig.toml" with
      | .error e => .error e
      | .ok defconfig =>
        match load_config_toml fs config_path with
        | .error e => .error e
        | .ok config => .ok (mergeConfig defconfig config)
  match loaded with
  | .error e => .error e
  | .ok config => gen_emit (inject_smp config axSmp)

/-- `name.strip_suffix(".toml")`. -/
def strip_toml (name : String) : Option String :=
  match name.data.reverse with
  | 'l' :: 'm' :: 'o' :: 't' :: '.' :: rest => some ⟨rest.reverse⟩
  | _ => none

/-- `Path::is_absolute` (Unix host). -/
def is_absolute (p : String) : Bool :=
  match p.data with
  | '/' :: _ => true
  | _ => false

/-- `resolve_config_path`, with the `CARGO_MANIFEST_DIR` root and the listing
of the `platforms` preset directory supplied as inputs. -/
def resolve_config_path (root_dir : String) (dirEntries : List String)
    (platform : Option String) : String :=
  match platform with
  | none => "defconfig.toml"
  | some plat =>
    if plat = "" then "defconfig.toml"
    else if (dirEntries.filterMap strip_toml).contains plat then
      root_dir ++ "/platforms/" ++ plat ++ ".toml"
    else if is_absolute plat then plat
    else root_dir ++ "/" ++ plat

/-- The build-script environment of one run of `main`: the file system, the
two environment variables, `OUT_DIR` (`None` models an unset variable, whose
`unwrap` panics), the manifest root, and the `read_dir` listing of the preset
directory (`None` models a directory-listing error). -/
structure BuildEnv where
  fs : String → LoadResult
  ax_platform : Option String
  ax_smp : Option String
  out_dir : Option String
  root_dir : String
  platform_dir_entries : Option (List String)

/-- `main`: resolve, generate, then write `$OUT_DIR/config.rs` in one call.
The result is the list of file writes performed together with the failure, if
any. -/
def mainRun (env : BuildEnv) : List (String × List String) × Option GenErr :=
  match env.platform_dir_entries with
  | none => ([], some .ioError)
  | some entries =>
    let config_path := resolve_config_path env.root_dir entries env.ax_platform
    match gen_config_rs env.fs config_path env.ax_smp with
    | .error e => ([], some e)
    | .ok lines =>
      match env.out_dir with
      | none => ([], some .panic)
      | some od => ([(od ++ "/config.rs", lines)], none)

/-! ### Helper lemmas about table lookup, insertion and merging -/

theorem lookupEntry_append_of_contains {t : Table} {k : String} (t' : Table)
    (h : contains_key t k = true) : lookupEntry (t ++ t') k = lookupEntry t k := by
  induction t with
  | nil => simp [contains_key, lookupEntry] at h
  | cons e t ih =>
    by_cases hk : e.key = k
    · simp [lookupEntry, hk]
    · simp only [List.cons_append, lookupEntry, hk, if_false]
      exact ih (by simpa [contains_key, lookupEntry, hk] using h)

theorem lookupEntry_append_of_not {t : Table} {k : String} (t' : Table)
    (h : contains_key t k = false) : lookupEntry (t ++ t') k = lookupEntry t' k := by
  induction t with
  | nil => rfl
  | cons e t ih =>
    by_cases hk : e.key = k
    · simp [contains_key, lookupEntry, hk] at h
    · simp only [List.cons_append, lookupEntry, hk, if_false]
      exact ih (by simpa [contains_key, lookupEntry, hk] using h)

theorem contains_key_append (t t' : Table) (k : String) :
    contains_key (t ++ t') k = (contains_key t k || contains_key t' k) := by
  by_cases h : contains_key t k = true
  · rw [show contains_key (t ++ t') k = (lookupEntry (t ++ t') k).isSome from rfl,
      lookupEntry_append_of_contains t' h, show (lookupEntry t k).isSome = contains_key t k
        from rfl, h, Bool.true_or]
  · rw [Bool.not_eq_true] at h
    rw [show contains_key (t ++ t') k = (lookupEntry (t ++ t') k).isSome from rfl,
      lookupEntry_append_of_not t' h, h, Bool.false_or]
    rfl

theorem insertItem_of_not_contains {t : Table} {k : String} (it : Item)
    (h : contains_key t k = false) : insertItem t k it = t ++ [⟨k, it, none⟩] := by
  induction t with
  | nil => rfl
  | cons e t ih =>
    by_cases hk : e.key = k
    · simp [contains_key, lookupEntry, hk] at h
    · simp only [insertItem, hk, if_false, List.cons_append, List.cons.injEq, true_and]
      exact ih (by simpa [contains_key, lookupEntry, hk] using h)

theorem setDecor_append_self {t : Table} {k : String} (it : Item) (d : Option String) (c : String)
    (h : contains_key t k = false) :
    setDecor (t ++ [⟨k, it, d⟩]) k c = t ++ [⟨k, it, some c⟩] := by
  induction t with
  | nil => simp [setDecor]
  | cons e t ih =>
    by_cases hk : e.key = k
    · simp [contains_key, lookupEntry, hk] at h
    · simp only [List.cons_append, setDecor, hk, if_false, List.cons.injEq, true_and]
      exact ih (by simpa [contains_key, lookupEntry, hk] using h)

theorem add_config_of_not_contains {t : Table} {k : String} (it : Item) (c : Option String)
    (h : contains_key t k = false) : add_config t k it c = t ++ [⟨k, it, c⟩] := by
  cases c with
  | none => simp [add_config, insertItem_of_not_contains it h]
  | some comm =>
    simp only [add_config, insertItem_of_not_contains it h]
    exact setDecor_append_self it none comm h

theorem lookupEntry_insertItem_self (t : Table) (k : String) (it : Item) :
    lookupEntry (insertItem t k it) k = some ⟨k, it, none⟩ := by
  induction t with
  | nil => simp [insertItem, lookupEntry]
  | cons e t ih =>
    by_cases hk : e.key = k
    · simp [insertItem, hk, lookupEntry]
    · simp [insertItem, hk, lookupEntry, ih]

theorem lookupEntry_setDecor_self (t : Table) (k : String) (c : String) :
    lookupEntry (setDecor t k c) k = (lookupEntry t k).map (fun e => ⟨e.key, e.item, some c⟩) := by
  induction t with
  | nil => rfl
  | cons e t ih =>
    by_cases hk : e.key = k
    · simp [setDecor, hk, lookupEntry]
    · simp [setDecor, hk, lookupEntry, ih]

theorem lookupEntry_add_config_self (t : Table) (k : String) (it : Item) (comm : String) :
    lookupEntry (add_config t k it (some comm)) k = some ⟨k, it, some comm⟩ := by
  simp [add_config, lookupEntry_setDecor_self, lookupEntry_insertItem_self]

theorem countKey_cons (e : Entry) (t : Table) (k' : String) :
    countKey (e :: t) k' =
      (if (e.key == k') = true then countKey t k' + 1 else countKey t k') := by
  by_cases hc : (e.key == k') = true
  · simp [countKey, List.filter_cons, hc]
  · simp [countKey, List.filter_cons, hc]

theorem countKey_setDecor (t : Table) (k c k' : String) :
    countKey (setDecor t k c) k' = countKey t k' := by
  induction t with
  | nil => rfl
  | cons e t ih =>
    by_cases hk : e.key = k
    · have hs : setDecor (e :: t) k c = { e with decor := some c } :: t := by
        simp [setDecor, hk]
      rw [hs, countKey_cons, countKey_cons]
    · have hs : setDecor (e :: t) k c = e :: setDecor t k c := by
        simp [setDecor, hk]
      rw [hs, countKey_cons, countKey_cons, ih]

theorem countKey_insertItem_contains {t : Table} {k : String} (it : Item)
    (h : contains_key t k = true) : countKey (insertItem t k it) k = countKey t k := by
  induction t with
  | nil => simp [contains_key, lookupEntry] at h
  | cons e t ih =>
    by_cases hk : e.key = k
    · simp [insertItem, hk, countKey, List.filter]
    · simp only [insertItem, hk, if_false, countKey, List.filter]
      have hne : (e.key == k) = false := by simpa using hk
      rw [hne]
      exact ih (by simpa [contains_key, lookupEntry, hk] using h)

theorem countKey_insertItem_not {t : Table} {k : String} (it : Item)
    (h : contains_key t k = false) : countKey (insertItem t k it) k = countKey t k + 1 := by
  rw [insertItem_of_not_contains it h]
  simp [countKey, List.filter_append]

theorem countKey_pos_of_contains {t : Table} {k : String} (h : contains_key t k = true) :
    0 < countKey t k := by
  induction t with
  | nil => simp [contains_key, lookupEntry] at h
  | cons e t ih =>
    by_cases hk : e.key = k
    · simp [countKey, List.filter, hk]
    · have hne : (e.key == k) = false := by simpa using hk
      simp only [countKey, List.filter, hne]
      exact ih (by simpa [contains_key, lookupEntry, hk] using h)

theorem countKey_zero_of_not_contains {t : Table} {k : String} (h : contains_key t k = false) :
    countKey t k = 0 := by
  induction t with
  | nil => rfl
  | cons e t ih =>
    by_cases hk : e.key = k
    · simp [contains_key, lookupEntry, hk] at h
    · have hne : (e.key == k) = false := by simpa using hk
      simp only [countKey, List.filter, hne]
      exact ih (by simpa [contains_key, lookupEntry, hk] using h)

theorem countKey_add_config_self {t : Table} {k : String} (it : Item) (c : Option String)
    (h : countKey t k ≤ 1) : countKey (add_config t k it c) k = 1 := by
  by_cases hc : contains_key t k = true
  · have h1 : countKey t k = 1 :=
      Nat.le_antisymm h (countKey_pos_of_contains hc)
    cases c with
    | none => simpa [add_config, countKey_insertItem_contains it hc]
    | some comm => simp [add_config, countKey_setDecor, countKey_insertItem_contains it hc, h1]
  · rw [Bool.not_eq_true] at hc
    have h0 : countKey t k = 0 := countKey_zero_of_not_contains hc
    cases c with
    | none => simp [add_config, countKey_insertItem_not it hc, h0]
    | some comm => simp [add_config, countKey_setDecor, countKey_insertItem_not it hc, h0]

/-! ### Lemmas about the merge fold -/

theorem mergeStep_of_contains {acc : Table} (d : Table) (e : Entry)
    (h : contains_key acc e.key = true) : mergeStep d acc e = acc := by
  unfold mergeStep
  simp [h]

theorem mergeStep_of_not_contains {acc : Table} (d : Table) (e : Entry)
    (h : contains_key acc e.key = false) :
    mergeStep d acc e = acc ++ [⟨e.key, e.item, get_comments d e.key⟩] := by
  unfold mergeStep
  simp only [h, Bool.false_eq_true, if_false]
  exact add_config_of_not_contains _ _ h

theorem mergeStep_lookup_of_contains {acc : Table} {k : String} (d : Table) (e : Entry)
    (h : contains_key acc k = true) :
    lookupEntry (mergeStep d acc e) k = lookupEntry acc k := by
  by_cases hc : contains_key acc e.key = true
  · rw [mergeStep_of_contains d e hc]
  · rw [Bool.not_eq_true] at hc
    rw [mergeStep_of_not_contains d e hc, lookupEntry_append_of_contains _ h]

theorem mergeStep_contains_of_contains {acc : Table} {k : String} (d : Table) (e : Entry)
    (h : contains_key acc k = true) : contains_key (mergeStep d acc e) k = true := by
  rw [show contains_key (mergeStep d acc e) k = (lookupEntry (mergeStep d acc e) k).isSome
    from rfl, mergeStep_lookup_of_contains d e h]
  exact h

theorem foldl_mergeStep_lookup_of_contains (d : Table) (l : List Entry) :
    ∀ acc : Table, ∀ k : String, contains_key acc k = true →
      lookupEntry (l.foldl (mergeStep d) acc) k = lookupEntry acc k := by
  induction l with
  | nil => intro acc k _; rfl
  | cons e l ih =>
    intro acc k h
    rw [List.foldl_cons, ih _ k (mergeStep_contains_of_contains d e h),
      mergeStep_lookup_of_contains d e h]

theorem foldl_mergeStep_lookup_found (d : Table) (l : List Entry) :
    ∀ (acc : Table) (k : String) (e : Entry),
      contains_key acc k = false → lookupEntry l k = some e →
      lookupEntry (l.foldl (mergeStep d) acc) k = some ⟨k, e.item, get_comments d k⟩ := by
  induction l with
  | nil => intro acc k e _ h2; simp [lookupEntry] at h2
  | cons e0 l ih =>
    intro acc k e h1 h2
    rw [List.foldl_cons]
    by_cases hk : e0.key = k
    · rw [lookupEntry, if_pos hk] at h2
      cases h2
      have hacc : contains_key acc e0.key = false := by rw [hk]; exact h1
      rw [mergeStep_of_not_contains d e0 hacc]
      have hcontains : contains_key (acc ++ [⟨e0.key, e0.item, get_comments d e0.key⟩]) k
          = true := by
        rw [contains_key_append, h1, Bool.false_or]
        simp [contains_key, lookupEntry, hk]
      rw [foldl_mergeStep_lookup_of_contains d l _ k hcontains,
        lookupEntry_append_of_not _ h1]
      simp [lookupEntry, hk]
    · rw [lookupEntry, if_neg hk] at h2
      by_cases hc : contains_key acc e0.key = true
      · rw [mergeStep_of_contains d e0 hc]
        exact ih acc k e h1 h2
      · rw [Bool.not_eq_true] at hc
        rw [mergeStep_of_not_contains d e0 hc]
        apply ih _ k e _ h2
        rw [contains_key_append, h1, Bool.false_or]
        simp [contains_key, lookupEntry, hk]

/-! ### Idempotence of `str::trim` -/

theorem dropWhile_self_idem {α : Type} (p : α → Bool) (l : List α) :
    (l.dropWhile p).dropWhile p = l.dropWhile p := by
  induction l with
  | nil => rfl
  | cons a t ih =>
    by_cases h : p a = true
    · simp [List.dropWhile_cons, h, ih]
    · simp [List.dropWhile_cons, h]

theorem head_dropWhile_false {α : Type} (p : α → Bool) (l : List α) {a : α} {t : List α}
    (h : l.dropWhile p = a :: t) : p a = false := by
  induction l with
  | nil => simp [List.dropWhile_nil] at h
  | cons b l ih =>
    by_cases hb : p b = true
    · rw [List.dropWhile_cons, if_pos hb] at h
      exact ih h
    · rw [List.dropWhile_cons, if_neg hb] at h
      cases h
      simpa using hb

theorem dropWhile_eq_self_of_head {α : Type} (p : α → Bool) {l : List α}
    (h : ∀ a t, l = a :: t → p a = false) : l.dropWhile p = l := by
  cases l with
  | nil => rfl
  | cons a t =>
    rw [List.dropWhile_cons, if_neg]
    simp [h a t rfl]

theorem getLast?_dropWhile {α : Type} (p : α → Bool) (l : List α)
    (h : l.dropWhile p ≠ []) : (l.dropWhile p).getLast? = l.getLast? := by
  induction l with
  | nil => simp [List.dropWhile_nil] at h
  | cons a t ih =>
    by_cases ha : p a = true
    · rw [List.dropWhile_cons, if_pos ha] at h ⊢
      rw [ih h]
      have ht : t ≠ [] := by
        intro e
        rw [e] at h
        simp at h
      cases t with
      | nil => exact absurd rfl ht
      | cons b t' => rw [List.getLast?_cons_cons]
    · rw [List.dropWhile_cons, if_neg ha]

theorem trimAux_idem (cs : List Char) : trimAux (trimAux cs) = trimAux cs := by
  unfold trimAux
  have h1 : ((cs.dropWhile wsB).reverse.dropWhile wsB).reverse.dropWhile wsB
      = ((cs.dropWhile wsB).reverse.dropWhile wsB).reverse := by
    apply dropWhile_eq_self_of_head
    intro a t h
    have hBne : (cs.dropWhile wsB).reverse.dropWhile wsB ≠ [] := by
      intro e
      rw [e] at h
      simp at h
    have h2 : ((cs.dropWhile wsB).reverse.dropWhile wsB).getLast? = some a := by
      rw [← List.head?_reverse, h]
      rfl
    rw [getLast?_dropWhile wsB _ hBne, List.getLast?_reverse] at h2
    cases hA : cs.dropWhile wsB with
    | nil => rw [hA] at h2; simp at h2
    | cons x xs =>
      rw [hA] at h2
      simp only [List.head?_cons, Option.some.injEq] at h2
      have hx := head_dropWhile_false wsB cs hA
      rwa [h2] at hx
  rw [h1, List.reverse_reverse, dropWhile_self_idem]

theorem rustTrim_idem (s : String) : rustTrim (rustTrim s) = rustTrim s := by
  show (⟨trimAux (String.mk (trimAux s.data)).data⟩ : String) = ⟨trimAux s.data⟩
  rw [show (String.mk (trimAux s.data)).data = trimAux s.data from rfl, trimAux_idem]

theorem optTrim_idem (x : Option String) : (x.map rustTrim).map rustTrim = x.map rustTrim := by
  cases x with
  | none => rfl
  | some s => simp [rustTrim_idem]

theorem lookupEntry_of_contains {t : Table} {k : String} (h : contains_key t k = true) :
    ∃ e, lookupEntry t k = some e := by
  cases hle : lookupEntry t k with
  | none =>
    unfold contains_key at h
    rw [hle] at h
    exact absurd h (by simp)
  | some e => exact ⟨e, rfl⟩

theorem mapE_error_of_mem {α β : Type} (f : α → Except GenErr β)
    (hf : ∀ x : α, ¬ f x = .error .ioError) (l : List α) (a : α)
    (ha : a ∈ l) (he : f a = .error .panic) : mapE f l = .error .panic := by
  induction l with
  | nil => cases ha
  | cons b t ih =>
    cases hb : f b with
    | error e =>
      cases e with
      | ioError => exact absurd hb (hf b)
      | panic => simp [mapE, hb]
    | ok v =>
      rcases List.mem_cons.mp ha with h | h
      · subst h
        rw [he] at hb
        cases hb
      · simp [mapE, hb, ih h, Except.map]

theorem emitRegion_ne_ioError (r : TomlValue) : ¬ emitRegion r = .error .ioError := by
  unfold emitRegion
  split
  · simp
  · split
    · split <;> simp
    · simp

/-! ### Claim theorems -/

/-- **C1.** For the merge of a default document and a platform override document:
every key present in the default document is present in the merged result; for a
key present in both documents the merged value equals the override's value; and
for a key present only in the default document the merged value and its leading
documentation comment (as observed through `get_comments`) equal the default
document's. -/
theorem merge_default_override_claim (d o : Table) (k : String) :
    (contains_key d k = true → contains_key (mergeConfig d o) k = true)
    ∧ (contains_key d k = true → contains_key o k = true →
        lookupItem (mergeConfig d o) k = lookupItem o k)
    ∧ (contains_key d k = true → contains_key o k = false →
        lookupItem (mergeConfig d o) k = lookupItem d k
          ∧ get_comments (mergeConfig d o) k = get_comments d k) := by
  refine ⟨?_, ?_, ?_⟩
  · intro hd
    by_cases ho : contains_key o k = true
    · rw [show contains_key (mergeConfig d o) k = (lookupEntry (mergeConfig d o) k).isSome
        from rfl, mergeConfig, foldl_mergeStep_lookup_of_contains d d o k ho]
      exact ho
    · rw [Bool.not_eq_true] at ho
      obtain ⟨e, he⟩ := lookupEntry_of_contains hd
      rw [show contains_key (mergeConfig d o) k = (lookupEntry (mergeConfig d o) k).isSome
        from rfl, mergeConfig, foldl_mergeStep_lookup_found d d o k e ho he]
      rfl
  · intro _ ho
    unfold lookupItem
    rw [mergeConfig, foldl_mergeStep_lookup_of_contains d d o k ho]
  · intro hd ho
    obtain ⟨e, he⟩ := lookupEntry_of_contains hd
    have hm := foldl_mergeStep_lookup_found d d o k e ho he
    constructor
    · unfold lookupItem
      rw [mergeConfig, hm, he]
      rfl
    · have h1 : get_comments (mergeConfig d o) k = (get_comments d k).map rustTrim := by
        unfold get_comments
        rw [mergeConfig, hm]
        rfl
      rw [h1]
      unfold get_comments
      exact optTrim_idem _

theorem merge_default_override_claim_w :
    contains_key [⟨"a", .value (.str "1"), some "# A"⟩, ⟨"b", .value (.str "2"), some "# B"⟩]
      "b" = true
    ∧ contains_key [(⟨"a", .value (.str "9"), none⟩ : Entry)] "b" = false
    ∧ contains_key
        (mergeConfig [⟨"a", .value (.str "1"), some "# A"⟩, ⟨"b", .value (.str "2"), some "# B"⟩]
          [(⟨"a", .value (.str "9"), none⟩ : Entry)]) "b" = true
    ∧ lookupItem
        (mergeConfig [⟨"a", .value (.str "1"), some "# A"⟩, ⟨"b", .value (.str "2"), some "# B"⟩]
          [(⟨"a", .value (.str "9"), none⟩ : Entry)]) "a"
      = lookupItem [(⟨"a", .value (.str "9"), none⟩ : Entry)] "a"
    ∧ lookupItem
        (mergeConfig [⟨"a", .value (.str "1"), some "# A"⟩, ⟨"b", .value (.str "2"), some "# B"⟩]
          [(⟨"a", .value (.str "9"), none⟩ : Entry)]) "b"
      = lookupItem [⟨"a", .value (.str "1"), some "# A"⟩, ⟨"b", .value (.str "2"), some "# B"⟩] "b"
    ∧ get_comments
        (mergeConfig [⟨"a", .value (.str "1"), some "# A"⟩, ⟨"b", .value (.str "2"), some "# B"⟩]
          [(⟨"a", .value (.str "9"), none⟩ : Entry)]) "b"
      = get_comments [⟨"a", .value (.str "1"), some "# A"⟩, ⟨"b", .value (.str "2"), some "# B"⟩]
          "b" := by
  have hb := merge_default_override_claim
      [⟨"a", .value (.str "1"), some "# A"⟩, ⟨"b", .value (.str "2"), some "# B"⟩]
      [(⟨"a", .value (.str "9"), none⟩ : Entry)] "b"
  have ha := merge_default_override_claim
      [⟨"a", .value (.str "1"), some "# A"⟩, ⟨"b", .value (.str "2"), some "# B"⟩]
      [(⟨"a", .value (.str "9"), none⟩ : Entry)] "a"
  exact ⟨rfl, rfl, hb.1 rfl, ha.2.1 rfl rfl, (hb.2.2 rfl rfl).1, (hb.2.2 rfl rfl).2⟩

/-- **C2, counterexample.** The claim says the CPU-count constant is always
numeric, equal to the environment variable when set and non-empty and to `1`
otherwise. With `AX_SMP` set to the empty string the code instead emits the
string constant `pub const SMP: &str = "";` and no `pub const SMP: usize = 1;`
line appears anywhere in the output. -/
theorem cpu_count_claim_counterexample :
    gen_config_rs
        (fun p => if p = "defconfig.toml"
          then .ok [⟨"platform", .value (.str "qemu"), none⟩] else .missing)
        "defconfig.toml" (some "")
      = .ok ["// Platform constants and parameters for qemu.",
          "// Generated by build.rs, DO NOT edit!", "",
          "", "pub const PLATFORM: &str = \"qemu\";",
          "/// Number of CPUs", "pub const SMP: &str = \"\";"]
    ∧ (["// Platform constants and parameters for qemu.",
          "// Generated by build.rs, DO NOT edit!", "",
          "", "pub const PLATFORM: &str = \"qemu\";",
          "/// Number of CPUs", "pub const SMP: &str = \"\";"].contains
            "pub const SMP: usize = 1;") = false :=
  ⟨rfl, by decide⟩

/-- **C2, amended.** For every table with at most one `smp` entry and every
environment, the injected table has exactly one `smp` entry; its value is the
`AX_SMP` value when the variable is set (including when it is set to the empty
string), else `"1"`; it always carries the fixed documentation comment; its
emitted declaration is a numeric (`usize`) constant exactly when the value
passes the numeric classifier, and a string constant otherwise; when `AX_SMP`
is unset the value `"1"` is classified numeric. -/
theorem cpu_count_injection_amended (cfg : Table) (ax : Option String)
    (h : countKey cfg "smp" ≤ 1) :
    countKey (inject_smp cfg ax) "smp" = 1
    ∧ lookupItem (inject_smp cfg ax) "smp" = some (.value (.str (ax.getD "1")))
    ∧ get_comments (inject_smp cfg ax) "smp" = some "# Number of CPUs"
    ∧ emitEntry (inject_smp cfg ax) ⟨"smp", .value (.str (ax.getD "1")), some "# Number of CPUs"⟩
        = .ok ["/// Number of CPUs",
            if is_num (ax.getD "1") = true
            then "pub const SMP: usize = " ++ ax.getD "1" ++ ";"
            else "pub const SMP: &str = \"" ++ ax.getD "1" ++ "\";"]
    ∧ (ax = none → is_num (ax.getD "1") = true) := by
  have hlook : lookupEntry (inject_smp cfg ax) "smp"
      = some ⟨"smp", .value (.str (ax.getD "1")), some "# Number of CPUs"⟩ :=
    lookupEntry_add_config_self cfg "smp" _ _
  have hcomm : get_comments (inject_smp cfg ax) "smp" = some "# Number of CPUs" := by
    unfold get_comments
    rw [hlook]
    rfl
  refine ⟨countKey_add_config_self _ _ h, ?_, hcomm, ?_, ?_⟩
  · unfold lookupItem
    rw [hlook]
    rfl
  · unfold emitEntry
    rw [hcomm]
    rfl
  · intro hax
    rw [hax]
    decide

theorem cpu_count_injection_amended_w :
    countKey ([] : Table) "smp" ≤ 1
    ∧ countKey (inject_smp ([] : Table) none) "smp" = 1
    ∧ get_comments (inject_smp ([] : Table) none) "smp" = some "# Number of CPUs" := by
  have h := cpu_count_injection_amended [] none (by decide)
  exact ⟨by decide, h.1, h.2.2.1⟩

/-- **C3.** The numeric-ness classifier strips underscores and accepts exactly
the strings whose remainder parses as a non-negative decimal `usize`, or, after
stripping a `0x` prefix, as a non-negative hexadecimal `usize`; `"42"`,
`"1_000"` and `"0x1F"` are numeric and are emitted as `usize` constants whose
literal text is the source string verbatim, while `"v1.0"` is non-numeric and
is emitted as a quoted string constant. -/
theorem is_num_claim (s : String) :
    is_num s =
      ((parse_usize 10 (s.data.filter (fun c => !(c == '_')))).isSome
        || (match s.data.filter (fun c => !(c == '_')) with
            | '0' :: 'x' :: rest => (parse_usize 16 rest).isSome
            | _ => false))
    ∧ is_num "42" = true ∧ is_num "1_000" = true ∧ is_num "0x1F" = true
    ∧ is_num "v1.0" = false
    ∧ emitEntry [] ⟨"n", .value (.str "42"), none⟩
        = .ok ["", "pub const N: usize = 42;"]
    ∧ emitEntry [] ⟨"ticks", .value (.str "1_000"), none⟩
        = .ok ["", "pub const TICKS: usize = 1_000;"]
    ∧ emitEntry [] ⟨"base", .value (.str "0x1F"), none⟩
        = .ok ["", "pub const BASE: usize = 0x1F;"]
    ∧ emitEntry [] ⟨"ver", .value (.str "v1.0"), none⟩
        = .ok ["", "pub const VER: &str = \"v1.0\";"] := by
  refine ⟨?_, by decide, by decide, by decide, by decide, rfl, rfl, rfl, rfl⟩
  unfold is_num
  by_cases h : (parse_usize 10 (s.data.filter (fun c => !(c == '_')))).isSome = true
  · simp [h]
  · rw [Bool.not_eq_true] at h
    simp [h]

/-- **C4.** A list-typed key whose name is none of `mmio-regions`,
`virtio-mmio-regions`, `pci-ranges` produces no declaration and no comment
line, even when the list value is present and well-formed. -/
theorem list_allowlist_claim (cfg : Table) (k : String) (elems : List TomlValue)
    (d : Option String) (h1 : ¬ k = "mmio-regions") (h2 : ¬ k = "virtio-mmio-regions")
    (h3 : ¬ k = "pci-ranges") :
    emitEntry cfg ⟨k, .value (.arr elems), d⟩ = .ok [] := by
  unfold emitEntry
  simp [h1, h2, h3]

theorem list_allowlist_claim_w :
    ¬ "memory-regions" = "mmio-regions"
    ∧ ¬ "memory-regions" = "virtio-mmio-regions"
    ∧ ¬ "memory-regions" = "pci-ranges"
    ∧ emitEntry [] ⟨"memory-regions", .value (.arr [.arr [.str "0", .str "1"]]), some "# M"⟩
        = .ok [] :=
  ⟨by decide, by decide, by decide,
    list_allowlist_claim [] "memory-regions" [.arr [.str "0", .str "1"]] (some "# M")
      (by decide) (by decide) (by decide)⟩

/-- **C5, counterexample.** The claim says an element of wrong arity (not
exactly 2 entries) is a fatal error. A 3-element region list element is
accepted: the pair is formed from its first two entries, the third is silently
ignored, and the whole list is emitted without any error. -/
theorem region_arity_claim_counterexample :
    emitRegion (.arr [.str "0x100", .str "0x200", .str "0x300"]) = .ok "    (0x100, 0x200),"
    ∧ emitEntry [] ⟨"mmio-regions",
        .value (.arr [.arr [.str "0x100", .str "0x200", .str "0x300"]]), none⟩
      = .ok ["", "pub const MMIO_REGIONS: &[(usize, usize)] = &[",
          "    (0x100, 0x200),", "];"] :=
  ⟨rfl, rfl⟩

/-- **C5, amended.** When emitting an allow-listed list key: an element that is
a list whose first two entries are strings is emitted as the pair literal of
those two entries (any further entries are ignored); an element that is not a
list, or has fewer than two entries, or a non-string among the first two
entries, is a fatal error (panic); and any failing element aborts the whole
entry's emission — there is no partial emission of the list. -/
theorem region_emission_amended (cfg : Table) (d : Option String) (key : String)
    (regions : List TomlValue) (r : TomlValue)
    (hk : key = "mmio-regions" ∨ key = "virtio-mmio-regions" ∨ key = "pci-ranges") :
    (∀ s0 s1 rest, r = .arr (.str s0 :: .str s1 :: rest) →
      emitRegion r = .ok ("    (" ++ s0 ++ ", " ++ s1 ++ "),"))
    ∧ (asArr r = none → emitRegion r = .error .panic)
    ∧ (∀ l, r = .arr l → l.length < 2 → emitRegion r = .error .panic)
    ∧ (∀ v0 v1 rest, r = .arr (v0 :: v1 :: rest) → (asStr v0 = none ∨ asStr v1 = none) →
      emitRegion r = .error .panic)
    ∧ (r ∈ regions → emitRegion r = .error .panic →
      emitEntry cfg ⟨key, .value (.arr regions), d⟩ = .error .panic) := by
  refine ⟨?_, ?_, ?_, ?_, ?_⟩
  · intro s0 s1 rest hr
    rw [hr]
    rfl
  · intro hr
    unfold emitRegion
    rw [hr]
  · intro l hr hl
    rw [hr]
    match l, hl with
    | [], _ => rfl
    | [v], _ => rfl
  · intro v0 v1 rest hr hv
    rw [hr]
    unfold emitRegion
    rcases hv with hv | hv
    · cases h1 : asStr v1 <;> simp [asArr, hv, h1]
    · cases h0 : asStr v0 <;> simp [asArr, hv, h0]
  · intro hmem herr
    have hmap : mapE emitRegion regions = .error .panic :=
      mapE_error_of_mem emitRegion emitRegion_ne_ioError regions r hmem herr
    rcases hk with hk | hk | hk <;> subst hk <;> simp [emitEntry, hmap, Except.map]

theorem region_emission_amended_w :
    ("mmio-regions" = "mmio-regions" ∨ "mmio-regions" = "virtio-mmio-regions"
      ∨ "mmio-regions" = "pci-ranges")
    ∧ emitRegion (.arr [.str "a", .str "b"]) = .ok "    (a, b),"
    ∧ emitRegion (.arr [.str "a"]) = .error .panic
    ∧ emitEntry [] ⟨"mmio-regions", .value (.arr [.arr [.str "a"]]), none⟩
        = .error .panic := by
  have h1 := region_emission_amended [] none "mmio-regions" [.arr [.str "a"]]
      (.arr [.str "a", .str "b"]) (Or.inl rfl)
  have h2 := region_emission_amended [] none "mmio-regions" [.arr [.str "a"]]
      (.arr [.str "a"]) (Or.inl rfl)
  refine ⟨Or.inl rfl, h1.1 "a" "b" [] rfl, h2.2.2.1 [.str "a"] rfl (by decide), ?_⟩
  exact h2.2.2.2.2 (by simp) (h2.2.2.1 [.str "a"] rfl (by decide))

/-- **C6, counterexample.** The claim says a key without documentation comment
emits no comment line before its declaration. The code writes the comment line
unconditionally, so a comment-less key is preceded by one empty line: the
emitted lines are `["", decl]`, not `[decl]`. -/
theorem comment_line_claim_counterexample :
    emitEntry [] ⟨"foo", .value (.str "1"), none⟩ = .ok ["", "pub const FOO: usize = 1;"]
    ∧ ¬ (["", "pub const FOO: usize = 1;"] = ["pub const FOO: usize = 1;"]) :=
  ⟨rfl, by decide⟩

/-- The array branch of the emitter for an allow-listed key: comment line,
opening line, pair lines, closing line, wrapped around the region map. -/
theorem emitEntry_arr_allowlisted (cfg : Table) (k : String) (regions : List TomlValue)
    (d : Option String)
    (hk : k = "mmio-regions" ∨ k = "virtio-mmio-regions" ∨ k = "pci-ranges") :
    emitEntry cfg ⟨k, .value (.arr regions), d⟩
      = (mapE emitRegion regions).map (fun pairs =>
          [replaceChar '#' ['/', '/', '/'] ((get_comments cfg k).getD ""),
            "pub const " ++ var_name_of k ++ ": &[(usize, usize)] = &["]
            ++ pairs ++ ["];"]) := by
  rcases hk with hk | hk | hk <;> subst hk <;> rfl

/-- **C6, amended.** Every emitted constant declaration — a scalar declaration
or an allow-listed list declaration — is preceded by one line holding the key's
documentation comment with every `#` replaced by `///`; a key with no
documentation comment emits one empty line (no comment text) before its
declaration. -/
theorem comment_emission_amended (cfg : Table) (k s : String) (d : Option String) (c : String) :
    (get_comments cfg k = some c →
      emitEntry cfg ⟨k, .value (.str s), d⟩
        = .ok [replaceChar '#' ['/', '/', '/'] c,
            if is_num s = true then "pub const " ++ var_name_of k ++ ": usize = " ++ s ++ ";"
            else "pub const " ++ var_name_of k ++ ": &str = \"" ++ s ++ "\";"])
    ∧ (get_comments cfg k = none →
      emitEntry cfg ⟨k, .value (.str s), d⟩
        = .ok ["",
            if is_num s = true then "pub const " ++ var_name_of k ++ ": usize = " ++ s ++ ";"
            else "pub const " ++ var_name_of k ++ ": &str = \"" ++ s ++ "\";"])
    ∧ (∀ regions pairs,
      (k = "mmio-regions" ∨ k = "virtio-mmio-regions" ∨ k = "pci-ranges") →
      mapE emitRegion regions = .ok pairs →
      get_comments cfg k = some c →
      emitEntry cfg ⟨k, .value (.arr regions), d⟩
        = .ok ([replaceChar '#' ['/', '/', '/'] c,
            "pub const " ++ var_name_of k ++ ": &[(usize, usize)] = &["]
            ++ pairs ++ ["];"]))
    ∧ (∀ regions pairs,
      (k = "mmio-regions" ∨ k = "virtio-mmio-regions" ∨ k = "pci-ranges") →
      mapE emitRegion regions = .ok pairs →
      get_comments cfg k = none →
      emitEntry cfg ⟨k, .value (.arr regions), d⟩
        = .ok (["", "pub const " ++ var_name_of k ++ ": &[(usize, usize)] = &["]
            ++ pairs ++ ["];"])) := by
  refine ⟨?_, ?_, ?_, ?_⟩
  · intro h
    unfold emitEntry
    rw [h]
    rfl
  · intro h
    unfold emitEntry
    rw [h]
    rfl
  · intro regions pairs hk hm hc
    rw [emitEntry_arr_allowlisted cfg k regions d hk, hm, hc]
    rfl
  · intro regions pairs hk hm hc
    rw [emitEntry_arr_allowlisted cfg k regions d hk, hm, hc]
    rfl

theorem comment_emission_amended_w :
    get_comments [(⟨"foo", .value (.str "1"), some "# doc"⟩ : Entry)] "foo" = some "# doc"
    ∧ emitEntry [(⟨"foo", .value (.str "1"), some "# doc"⟩ : Entry)]
        ⟨"foo", .value (.str "1"), some "# doc"⟩
      = .ok [replaceChar '#' ['/', '/', '/'] "# doc",
          if is_num "1" = true
          then "pub const " ++ var_name_of "foo" ++ ": usize = " ++ "1" ++ ";"
          else "pub const " ++ var_name_of "foo" ++ ": &str = \"" ++ "1" ++ "\";"]
    ∧ ("mmio-regions" = "mmio-regions" ∨ "mmio-regions" = "virtio-mmio-regions"
        ∨ "mmio-regions" = "pci-ranges")
    ∧ mapE emitRegion [.arr [.str "0", .str "1"]] = .ok ["    (0, 1),"]
    ∧ get_comments
        [(⟨"mmio-regions", .value (.arr [.arr [.str "0", .str "1"]]), some "# regions"⟩ : Entry)]
        "mmio-regions" = some "# regions"
    ∧ emitEntry
        [(⟨"mmio-regions", .value (.arr [.arr [.str "0", .str "1"]]), some "# regions"⟩ : Entry)]
        ⟨"mmio-regions", .value (.arr [.arr [.str "0", .str "1"]]), some "# regions"⟩
      = .ok ([replaceChar '#' ['/', '/', '/'] "# regions",
          "pub const " ++ var_name_of "mmio-regions" ++ ": &[(usize, usize)] = &["]
          ++ ["    (0, 1),"] ++ ["];"])
    ∧ get_comments [(⟨"pci-ranges", .value (.arr []), none⟩ : Entry)] "pci-ranges" = none
    ∧ emitEntry [(⟨"pci-ranges", .value (.arr []), none⟩ : Entry)]
        ⟨"pci-ranges", .value (.arr []), none⟩
      = .ok (["", "pub const " ++ var_name_of "pci-ranges" ++ ": &[(usize, usize)] = &["]
          ++ ([] : List String) ++ ["];"]) :=
  ⟨rfl,
    (comment_emission_amended
      [(⟨"foo", .value (.str "1"), some "# doc"⟩ : Entry)] "foo" "1" (some "# doc") "# doc").1 rfl,
    Or.inl rfl, rfl, rfl,
    (comment_emission_amended
      [(⟨"mmio-regions", .value (.arr [.arr [.str "0", .str "1"]]), some "# regions"⟩ : Entry)]
      "mmio-regions" "1" (some "# regions") "# regions").2.2.1
        [.arr [.str "0", .str "1"]] ["    (0, 1),"] (Or.inl rfl) rfl rfl,
    rfl,
    (comment_emission_amended
      [(⟨"pci-ranges", .value (.arr []), none⟩ : Entry)]
      "pci-ranges" "1" none "unused").2.2.2
        [] [] (Or.inr (Or.inr rfl)) rfl rfl⟩

/-- **C7.** The path resolver returns the fixed default config file path for an
absent or empty platform; the preset file's path for a platform matching a
preset directory entry minus the `.toml` extension; and otherwise treats the
platform string as a path, as-is when absolute and joined to the project root
when relative. -/
theorem resolve_config_path_claim (root : String) (entries : List String) (plat : String) :
    resolve_config_path root entries none = "defconfig.toml"
    ∧ resolve_config_path root entries (some "") = "defconfig.toml"
    ∧ (¬ plat = "" → (entries.filterMap strip_toml).contains plat = true →
        resolve_config_path root entries (some plat) = root ++ "/platforms/" ++ plat ++ ".toml")
    ∧ (¬ plat = "" → (entries.filterMap strip_toml).contains plat = false →
        is_absolute plat = true → resolve_config_path root entries (some plat) = plat)
    ∧ (¬ plat = "" → (entries.filterMap strip_toml).contains plat = false →
        is_absolute plat = false →
        resolve_config_path root entries (some plat) = root ++ "/" ++ plat) := by
  refine ⟨rfl, by simp [resolve_config_path], ?_, ?_, ?_⟩
  · intro h1 h2
    show (if plat = "" then "defconfig.toml"
      else if (entries.filterMap strip_toml).contains plat = true then
        root ++ "/platforms/" ++ plat ++ ".toml"
      else if is_absolute plat = true then plat else root ++ "/" ++ plat) = _
    rw [if_neg h1, if_pos h2]
  · intro h1 h2 h3
    show (if plat = "" then "defconfig.toml"
      else if (entries.filterMap strip_toml).contains plat = true then
        root ++ "/platforms/" ++ plat ++ ".toml"
      else if is_absolute plat = true then plat else root ++ "/" ++ plat) = _
    rw [if_neg h1, if_neg (by rw [h2]; simp), if_pos h3]
  · intro h1 h2 h3
    show (if plat = "" then "defconfig.toml"
      else if (entries.filterMap strip_toml).contains plat = true then
        root ++ "/platforms/" ++ plat ++ ".toml"
      else if is_absolute plat = true then plat else root ++ "/" ++ plat) = _
    rw [if_neg h1, if_neg (by rw [h2]; simp), if_neg (by rw [h3]; simp)]

theorem resolve_config_path_claim_w :
    (¬ "qemu" = "" ∧ (["qemu.toml", "doc.md"].filterMap strip_toml).contains "qemu" = true
      ∧ resolve_config_path "/r" ["qemu.toml", "doc.md"] (some "qemu")
          = "/r" ++ "/platforms/" ++ "qemu" ++ ".toml")
    ∧ ((["qemu.toml"].filterMap strip_toml).contains "/abs/c.toml" = false
      ∧ is_absolute "/abs/c.toml" = true
      ∧ resolve_config_path "/r" ["qemu.toml"] (some "/abs/c.toml") = "/abs/c.toml")
    ∧ ((["qemu.toml"].filterMap strip_toml).contains "rel/c.toml" = false
      ∧ is_absolute "rel/c.toml" = false
      ∧ resolve_config_path "/r" ["qemu.toml"] (some "rel/c.toml")
          = "/r" ++ "/" ++ "rel/c.toml") := by
  refine ⟨⟨by decide, by decide, ?_⟩, ⟨by decide, by decide, ?_⟩, ⟨by decide, by decide, ?_⟩⟩
  · exact (resolve_config_path_claim "/r" ["qemu.toml", "doc.md"] "qemu").2.2.1
      (by decide) (by decide)
  · exact (resolve_config_path_claim "/r" ["qemu.toml"] "/abs/c.toml").2.2.2.1
      (by decide) (by decide) (by decide)
  · exact (resolve_config_path_claim "/r" ["qemu.toml"] "rel/c.toml").2.2.2.2
      (by decide) (by decide) (by decide)

/-- **C8.** For every merged configuration containing a `platform` key with a
string value, the emitted text is the two fixed header lines — the first naming
the target platform read from the `platform` key, the second the
generated-do-not-edit warning — followed by a blank line and then the constant
declarations; in particular any successful output starts with exactly those
two header lines before any constant declaration. -/
theorem header_claim (cfg : Table) (p : String)
    (hp : lookupItem cfg "platform" = some (.value (.str p))) :
    gen_emit cfg = (gen_config_body cfg).map (fun body => header1 p :: header2 :: "" :: body)
    ∧ (∀ ls, gen_emit cfg = .ok ls → ls.take 3 = [header1 p, header2, ""]) := by
  have h1 : gen_emit cfg
      = (gen_config_body cfg).map (fun body => header1 p :: header2 :: "" :: body) := by
    unfold gen_emit
    rw [hp]
    rfl
  refine ⟨h1, ?_⟩
  intro ls hls
  rw [h1] at hls
  cases hb : gen_config_body cfg with
  | error e =>
    rw [hb] at hls
    cases hls
  | ok body =>
    rw [hb] at hls
    cases hls
    rfl

theorem header_claim_w :
    lookupItem [(⟨"platform", .value (.str "qemu"), none⟩ : Entry)] "platform"
      = some (.value (.str "qemu"))
    ∧ gen_emit [(⟨"platform", .value (.str "qemu"), none⟩ : Entry)]
      = (gen_config_body [(⟨"platform", .value (.str "qemu"), none⟩ : Entry)]).map
          (fun body => header1 "qemu" :: header2 :: "" :: body) :=
  ⟨rfl, (header_claim [(⟨"platform", .value (.str "qemu"), none⟩ : Entry)] "qemu" rfl).1⟩

/-- **C9.** If any pipeline stage (directory listing for path resolution,
loading, parsing, merging/emission inside `gen_config_rs`, or reading
`OUT_DIR`) fails, the run aborts with an error and no file is written; on
success the fully assembled text is written in one single write to
`$OUT_DIR/config.rs`. In all cases at most one write happens. -/
theorem no_partial_output_claim (env : BuildEnv) :
    ((mainRun env).2.isSome = true → (mainRun env).1 = [])
    ∧ ((mainRun env).2 = none →
        ∃ entries od lines,
          env.platform_dir_entries = some entries
          ∧ env.out_dir = some od
          ∧ gen_config_rs env.fs (resolve_config_path env.root_dir entries env.ax_platform)
              env.ax_smp = .ok lines
          ∧ (mainRun env).1 = [(od ++ "/config.rs", lines)])
    ∧ (mainRun env).1.length ≤ 1 := by
  unfold mainRun
  cases hpd : env.platform_dir_entries with
  | none => simp
  | some entries =>
    cases hg : gen_config_rs env.fs (resolve_config_path env.root_dir entries env.ax_platform)
        env.ax_smp with
    | error e => simp [hg]
    | ok lines =>
      cases hod : env.out_dir with
      | none => simp [hg, hod]
      | some od =>
        simp only [hg, hod]
        refine ⟨by simp, ?_, by simp⟩
        intro _
        exact ⟨entries, od, lines, rfl, rfl, hg, rfl⟩

theorem no_partial_output_claim_w :
    (mainRun ⟨fun _ => .missing, none, none, none, "/r", none⟩).2.isSome = true
    ∧ (mainRun ⟨fun _ => .missing, none, none, none, "/r", none⟩).1 = []
    ∧ (mainRun ⟨fun p => if p = "defconfig.toml"
          then .ok [⟨"platform", .value (.str "q"), none⟩] else .missing,
        none, none, some "/o", "/r", some []⟩).2 = none
    ∧ (∃ entries od lines,
        (some [] : Option (List String)) = some entries
        ∧ (some "/o" : Option String) = some od
        ∧ gen_config_rs
            (fun p => if p = "defconfig.toml"
              then .ok [⟨"platform", .value (.str "q"), none⟩] else .missing)
            (resolve_config_path "/r" entries none) none = .ok lines
        ∧ (mainRun ⟨fun p => if p = "defconfig.toml"
              then .ok [⟨"platform", .value (.str "q"), none⟩] else .missing,
            none, none, some "/o", "/r", some []⟩).1 = [(od ++ "/config.rs", lines)]) := by
  refine ⟨rfl, ?_, rfl, ?_⟩
  · exact (no_partial_output_claim ⟨fun _ => .missing, none, none, none, "/r", none⟩).1 rfl
  · exact (no_partial_output_claim ⟨fun p => if p = "defconfig.toml"
        then .ok [⟨"platform", .value (.str "q"), none⟩] else .missing,
      none, none, some "/o", "/r", some []⟩).2.1 rfl

/-- **C10.** A key whose item is a TOML value that is neither a string nor an
array (a bare integer, float, boolean, datetime or inline table), or is not a
value item at all (a sub-table, array-of-tables, or none item), produces no
declaration and no comment line. -/
theorem non_scalar_skip_claim (cfg : Table) (k : String) (d : Option String) (v : TomlValue)
    (hs : asStr v = none) (ha : asArr v = none) :
    emitEntry cfg ⟨k, .value v, d⟩ = .ok []
    ∧ emitEntry cfg ⟨k, Item.nonValue, d⟩ = .ok [] := by
  constructor
  · cases v with
    | str s => simp [asStr] at hs
    | arr l => simp [asArr] at ha
    | intV n => rfl
    | floatV raw => rfl
    | boolV b => rfl
    | datetime raw => rfl
    | inlineTable => rfl
  · rfl

theorem non_scalar_skip_claim_w :
    asStr (.intV 3) = none ∧ asArr (.intV 3) = none
    ∧ emitEntry [] ⟨"x", .value (.intV 3), none⟩ = .ok []
    ∧ emitEntry [] ⟨"x", Item.nonValue, none⟩ = .ok [] := by
  have h := non_scalar_skip_claim [] "x" none (.intV 3) rfl rfl
  exact ⟨rfl, rfl, h.1, h.2⟩

end BuildConfig
